import Mathlib

/-!
Shallow embedding of the teal-finance/incorruptible token codec.

Sources embedded (Go): coding.go / format/coding/coding.go (header, metadata,
expiry and uint byte codecs), the serializer (Marshal, doesCompress),
Unmarshal/parseValues, encoder.go (Encode/Decode pipeline), the AEAD wrappers
(Encrypt/Decrypt, NewCipher), getset.go (positional typed accessors) and the
TValues validation (Valid, CompareExpiry, ValidIP).

Go integers are modelled as Nat/Int; `byte(x)` conversions are `% 256`;
Go's truncated integer division on int64 is `Int.tdiv`.  External
collaborators (the s2 compressor, the AEAD primitive, the Base91 codec)
are parameters of the functions that call them, constrained only in the
theorems that need their documented contracts. Randomness (salt byte,
compression coin, nonce) is passed as explicit arguments.
-/

namespace Incorr

/-! ### Constants from coding.go and format/coding/coding.go -/

def HeaderSize : Nat := 3

def maskIP : Nat := 0x80

def maskIPv4 : Nat := 0x40

def maskCompress : Nat := 0x20

def maskNValues : Nat := 0x1f

def MaxValues : Nat := maskNValues

def ExpiryStartYear : Nat := 2022

def ExpirySize : Nat := 3

def expiryBits : Nat := ExpirySize * 8

def expiryMax : Nat := 1 <<< expiryBits

def PrecisionInSeconds : Int := 20

def secondsPerYear : Int := 31556952

/-- `(ExpiryStartYear - 1970) * secondsPerYear` computed by Go exact
constant arithmetic: `52 * 31556952`. -/
def internalToUnix : Int := (2022 - 1970) * secondsPerYear

def unixToInternal : Int := -internalToUnix

/-- Upper bound of the encodable range measured from `internalToUnix`:
`expiryMax * PrecisionInSeconds = 2^24 * 20` seconds. -/
def rangeInSeconds : Int := (expiryMax : Int) * PrecisionInSeconds

/-! ### Expiry codec (format/coding/coding.go) -/

/-- `unixToInternalExpiry` converts Unix time to the internal 3-byte coding.
Go's `/` on int64 truncates toward zero, hence `Int.tdiv`. -/
def unixToInternalExpiry (unix : Int) : Except String Nat :=
  if unix = 0 then .ok 0
  else
    let secondsSinceInternalStartYear := unix + unixToInternal
    let expiry := Int.tdiv secondsSinceInternalStartYear PrecisionInSeconds
    if expiry < 0 then .error "unix time too low"
    else if expiry ≥ (expiryMax : Int) then .error "unix time too high"
    else .ok expiry.toNat

/-- `internalExpiryToUnix` converts the internal expiry back to Unix seconds. -/
def internalExpiryToUnix (expiry : Nat) : Int :=
  if expiry = 0 then 0
  else (expiry : Int) * PrecisionInSeconds + internalToUnix

/-- The 3 little-endian bytes written by `putInternalExpiry` just after the
header (`ExpirySize = 3`, so the 4-byte branch is dead). -/
def putInternalExpiry (e : Nat) : List Nat :=
  [e % 256, (e >>> 8) % 256, (e >>> 16) % 256]

/-- `internalExpiry` reads the 3 little-endian bytes back (`e |= b<<k`). -/
def internalExpiry (buf : List Nat) : Nat :=
  ((buf.getD 0 0) ||| ((buf.getD 1 0) <<< 8)) ||| ((buf.getD 2 0) <<< 16)

/-! ### Compression decision (serializer, flat package) -/

def sizeMayCompress : Nat := 50

def sizeMustCompress : Nat := 99

/-- `doesCompress` from the serializer: the middle branch draws
`zeroOrOne := rand.Int63() & 1` and compresses when it is `0`.  The PRNG
draw is the explicit argument `r`. -/
def doesCompress (r : Nat) (payloadSize : Nat) : Bool :=
  if payloadSize < sizeMayCompress then false
  else if payloadSize < sizeMustCompress then (r &&& 1) == 0
  else true

/-! ### TValues (part of the flat package, tvalues file) -/

/-- Decoded form of an Incorruptible token: `Expires` is Go `int64` Unix
seconds, `IP` a raw byte slice (length 0, 4 or 16 when well-formed),
`Values` the positional byte strings. -/
structure TValues where
  Expires : Int
  IP : List Nat
  Values : List (List Nat)
deriving DecidableEq, Repr

def EmptyTValues : TValues := { Expires := 0, IP := [], Values := [] }

/-! ### Metadata byte (coding.go) -/

def MagicCode (buf : List Nat) : Nat := buf.getD 0 0

abbrev Metadata := Nat

def GetMetadata (buf : List Nat) : Metadata := buf.getD 2 0

/-- `NewMetadata` packs the metadata bits.  `nValues` is a Go `int` coming
from `len`, hence never negative; the negative guard is kept as in source. -/
def NewMetadata (ipLength : Nat) (compressed : Bool) (nValues : Nat) : Except String Metadata :=
  let metaIP : Except String Nat :=
    if ipLength = 0 then .ok 0
    else if ipLength = 4 then .ok (maskIP ||| maskIPv4)
    else if ipLength = 16 then .ok maskIP
    else .error "unexpected IP length"
  match metaIP with
  | .error e => .error e
  | .ok meta =>
    let meta := if compressed then meta ||| maskCompress else meta
    if nValues > MaxValues then .error "too much values"
    else .ok (meta ||| nValues)

def Metadata.ipLength (meta : Metadata) : Nat :=
  if meta &&& maskIPv4 ≠ 0 then 4
  else if meta &&& maskIP ≠ 0 then 16
  else 0

def Metadata.IsCompressed (meta : Metadata) : Bool :=
  (meta &&& maskCompress) != 0

def Metadata.NValues (meta : Metadata) : Nat :=
  meta &&& maskNValues

def Metadata.PayloadMinSize (meta : Metadata) : Nat :=
  ExpirySize + meta.ipLength + meta.NValues

def DecodeExpiry (buf : List Nat) : List Nat × Int :=
  (buf.drop ExpirySize, internalExpiryToUnix (internalExpiry buf))

def Metadata.DecodeIP (meta : Metadata) (buf : List Nat) : List Nat × List Nat :=
  (buf.drop meta.ipLength, buf.take meta.ipLength)

/-! ### Uint64 byte helper (coding.go) -/

/-- Minimal-length little-endian encoding of a uint64 (0 bytes for 0). -/
def Uint64ToBytes (v : Nat) : List Nat :=
  if v = 0 then []
  else if v < 1 <<< 8 then [v % 256]
  else if v < 1 <<< 16 then [v % 256, (v >>> 8) % 256]
  else if v < 1 <<< 24 then [v % 256, (v >>> 8) % 256, (v >>> 16) % 256]
  else if v < 1 <<< 32 then [v % 256, (v >>> 8) % 256, (v >>> 16) % 256, (v >>> 24) % 256]
  else if v < 1 <<< 40 then
    [v % 256, (v >>> 8) % 256, (v >>> 16) % 256, (v >>> 24) % 256, (v >>> 32) % 256]
  else if v < 1 <<< 48 then
    [v % 256, (v >>> 8) % 256, (v >>> 16) % 256, (v >>> 24) % 256, (v >>> 32) % 256,
      (v >>> 40) % 256]
  else if v < 1 <<< 56 then
    [v % 256, (v >>> 8) % 256, (v >>> 16) % 256, (v >>> 24) % 256, (v >>> 32) % 256,
      (v >>> 40) % 256, (v >>> 48) % 256]
  else
    [v % 256, (v >>> 8) % 256, (v >>> 16) % 256, (v >>> 24) % 256, (v >>> 32) % 256,
      (v >>> 40) % 256, (v >>> 48) % 256, (v >>> 56) % 256]

/-! ### Serializer (flat package: Serializer, newSerializer, Marshal) -/

/-- `EnablePadding` is the build-time constant from padding.go; it is
`false`, so the padding stage of Marshal/Unmarshal is skipped. -/
def EnablePadding : Bool := false

structure Serializer where
  ipLength : Nat
  nValues : Nat
  valTotalSize : Nat
  payloadSize : Nat
  compressed : Bool

/-- `newSerializer`; `r` is the `rand.Int63()` draw of `doesCompress`. -/
def newSerializer (r : Nat) (tv : TValues) : Serializer :=
  let ipLength := tv.IP.length
  let nValues := tv.Values.length
  let valTotalSize := nValues + (tv.Values.map List.length).sum
  let payloadSize := ExpirySize + ipLength + valTotalSize
  { ipLength := ipLength
    nValues := nValues
    valTotalSize := valTotalSize
    payloadSize := payloadSize
    compressed := doesCompress r payloadSize }

/-- Loop of `Serializer.appendValues`: length byte `uint8(len(v))` then the
raw bytes, after the 255-byte guard. -/
def appendValues (buf : List Nat) : List (List Nat) → Except String (List Nat)
  | [] => .ok buf
  | v :: rest =>
    if v.length > 255 then .error "too large"
    else appendValues (buf ++ (v.length % 256) :: v) rest

/-- `putHeaderExpiryIP`: magic, salt byte, metadata, expiry bytes, raw IP.
`salt` is the `rand.Int63()` draw of `PutHeader` (stored as a byte). -/
def putHeaderExpiryIP (s : Serializer) (magic salt : Nat) (tv : TValues) :
    Except String (List Nat) := do
  let meta ← NewMetadata s.ipLength s.compressed s.nValues
  let internal ← unixToInternalExpiry tv.Expires
  .ok ([magic, salt % 256, meta] ++ putInternalExpiry internal ++ tv.IP)

/-- `Marshal` of the flat package.  `s2enc` stands for the external
`s2.Encode` compressor; the `copy` into the payload area fails exactly when
the compressed form is longer than the uncompressed payload.  The
`EnablePadding` branch is skipped (`EnablePadding = false`). -/
def Marshal (s2enc : List Nat → List Nat) (r salt : Nat) (tv : TValues) (magic : Nat) :
    Except String (List Nat) := do
  let s := newSerializer r tv
  let b ← putHeaderExpiryIP s magic salt tv
  let b ← appendValues b tv.Values
  if b.length ≠ HeaderSize + s.payloadSize then .error "unexpected length"
  else if s.compressed then
    let c := s2enc (b.drop HeaderSize)
    if c.length > s.payloadSize then .error "unexpected copied bytes"
    else .ok (b.take HeaderSize ++ c)
  else .ok b

/-! ### Deserializer (flat package: Unmarshal, parseValues) -/

/-- Loop of `parseValues`: `nV` records of `len(1) ‖ data(len)`, with the
source's running minimum-length check and the trailing-bytes check. -/
def parseValues (buf : List Nat) : Nat → Except String (List (List Nat))
  | 0 => if buf.length > 0 then .error "unexpected remaining bytes" else .ok []
  | n + 1 =>
    if buf.length < n + 1 then .error "not enough bytes at length"
    else
      match buf with
      | [] => .error "unreachable: empty buffer with positive length"
      | size :: rest =>
        if rest.length < size then .error "not enough bytes at value"
        else do
          let values ← parseValues (rest.drop size) n
          .ok (rest.take size :: values)

/-- `Unmarshal` of the flat package; `s2dec` stands for the external
`s2.Decode`.  The `dropPadding` branch is skipped (`EnablePadding = false`). -/
def Unmarshal (s2dec : List Nat → Except String (List Nat)) (buf : List Nat) :
    Except String TValues := do
  if buf.length < HeaderSize + ExpirySize then .error "not enough bytes for header plus expiry"
  else
    let meta := GetMetadata buf
    let rest := buf.drop HeaderSize
    let rest ← if meta.IsCompressed then s2dec rest else .ok rest
    if rest.length < meta.PayloadMinSize then .error "not enough bytes for payload"
    else
      let (rest, expires) := DecodeExpiry rest
      let (rest, ip) := meta.DecodeIP rest
      let values ← parseValues rest meta.NValues
      .ok { Expires := expires, IP := ip, Values := values }

/-! ### AEAD wrappers (middleware.go: NewCipher, Encrypt, Decrypt) -/

def aesNonceSize : Nat := 12

def gcmTagSize : Nat := 16

/-- Abstract view of a Go `cipher.AEAD`: `Seal n p` is the `ciphertext‖tag`
block that `Seal(dst, n, p, nil)` appends to `dst`; `Open n c` is
`Open(dst, n, c, nil)`. -/
structure AEAD where
  nonceSize : Nat
  Seal : List Nat → List Nat → List Nat
  Open : List Nat → List Nat → Except String (List Nat)

/-- Which AEAD `NewCipher` constructs. -/
inductive AEADKind where
  | aes128gcm
  | chacha20poly1305
deriving DecidableEq, Repr

/-- `NewCipher` dispatches on the secret-key length; any other length hits
`log.Panic`, modelled as a construction error. -/
def NewCipher (secretKey : List Nat) : Except String AEADKind :=
  if secretKey.length = 16 then .ok .aes128gcm
  else if secretKey.length = 32 then .ok .chacha20poly1305
  else .error "unexpected secretKey length"

/-- Nonce size of both constructed AEADs (AES-GCM standard nonce, checked
against `aesNonceSize` in source; chacha20poly1305.NonceSize is also 12). -/
def AEADKind.nonceSize : AEADKind → Nat
  | _ => aesNonceSize

/-- Tag overhead of both constructed AEADs. -/
def AEADKind.tagSize : AEADKind → Nat
  | _ => gcmTagSize

/-- `Encrypt`: fills a fresh `nonceSize` buffer from the PRNG (the explicit
`nonce` argument) and lets `Seal` append `ciphertext‖tag` to it. -/
def Encrypt (aead : AEAD) (nonce : List Nat) (plaintext : List Nat) : List Nat :=
  nonce ++ aead.Seal nonce plaintext

/-- `Decrypt`: splits the leading `nonceSize` bytes off and opens the rest. -/
def Decrypt (aead : AEAD) (all : List Nat) : Except String (List Nat) :=
  aead.Open (all.take aead.nonceSize) (all.drop aead.nonceSize)

/-! ### Token facade (encoder.go: Encode, Decode) -/

def Base91MinSize : Nat := 42

def ciphertextMinSize : Nat := 6

def encryptedMinSize : Nat := aesNonceSize + ciphertextMinSize + gcmTagSize

/-- Instance state used by Encode/Decode: the per-instance magic byte, the
AEAD cipher and the per-instance Base91 codec (`baseN`). -/
structure Incorruptible where
  magic : Nat
  cipher : AEAD
  baseNEnc : List Nat → List Nat
  baseNDec : List Nat → Except String (List Nat)

/-- `Encode`: Marshal, AEAD-seal, Base91-encode. -/
def Encode (s2enc : List Nat → List Nat) (incorr : Incorruptible) (r salt : Nat)
    (nonce : List Nat) (tv : TValues) : Except String (List Nat) := do
  let plaintext ← Marshal s2enc r salt tv incorr.magic
  .ok (incorr.baseNEnc (Encrypt incorr.cipher nonce plaintext))

/-- `Decode`: length guard, Base91-decode, length guard, AEAD-open, magic
check, Unmarshal. -/
def Decode (s2dec : List Nat → Except String (List Nat)) (incorr : Incorruptible)
    (str : List Nat) : Except String TValues := do
  if str.length < Base91MinSize then .error "BasE91 text too short"
  else
    let encrypted ← incorr.baseNDec str
    if encrypted.length < encryptedMinSize then .error "encrypted data too short"
    else
      let plaintext ← Decrypt incorr.cipher encrypted
      if MagicCode plaintext ≠ incorr.magic then .error "bad magic code"
      else Unmarshal s2dec plaintext

/-! ### Positional typed accessors (getset.go) -/

/-- `checkWrite`: a write key must satisfy `0 ≤ key ≤ MaxValues`.  The key is
a Go `int`, hence `Int`. -/
def checkWrite (key : Int) : Except String Unit :=
  if key < 0 then .error "key must not be negative"
  else if key > (MaxValues : Int) then .error "key is over max storage"
  else .ok ()

/-- `checkRead`: a read key must be an existing index. -/
def TValues.checkRead (tv : TValues) (key : Int) : Except String Unit :=
  if key < 0 then .error "key must not be negative"
  else if key ≥ (tv.Values.length : Int) then .error "key out of range"
  else .ok ()

/-- `set` on the Values slice, after `checkWrite` has accepted `key`.
Go slice mechanics made explicit: `cap` is the capacity of `tv.Values`.
`key = len` appends; otherwise `key ≥ cap` reallocates a 32-slot array
(`make([][]byte, MaxValues+1)` plus `copy`), then the length is extended to
`key+1` when needed (slots beyond the old length are nil), and slot `key`
is overwritten. -/
def set (values : List (List Nat)) (cap : Nat) (key : Nat) (buf : List Nat) :
    List (List Nat) :=
  if key = values.length then values ++ [buf]
  else
    let values :=
      if cap ≤ key then values.take (MaxValues + 1) ++
        List.replicate (MaxValues + 1 - values.length) []
      else values
    let values :=
      if values.length ≤ key then values ++ List.replicate (key + 1 - values.length) []
      else values
    values.set key buf

def TValues.setV (tv : TValues) (cap : Nat) (key : Int) (buf : List Nat) : TValues :=
  { tv with Values := set tv.Values cap key.toNat buf }

/-- `SetUint64`: checkWrite then store `Uint64ToBytes val`. -/
def TValues.SetUint64 (tv : TValues) (cap : Nat) (key : Int) (val : Nat) :
    Except String TValues := do
  let _ ← checkWrite key
  .ok (tv.setV cap key (Uint64ToBytes val))

/-- `SetBool`: checkWrite then store `[]` for false, `[0]` for true. -/
def TValues.SetBool (tv : TValues) (cap : Nat) (key : Int) (val : Bool) :
    Except String TValues := do
  let _ ← checkWrite key
  .ok (tv.setV cap key (if val then [0] else []))

/-- `SetString`: checkWrite then store the raw bytes of the string. -/
def TValues.SetString (tv : TValues) (cap : Nat) (key : Int) (val : List Nat) :
    Except String TValues := do
  let _ ← checkWrite key
  .ok (tv.setV cap key val)

/-! ### Validation against the request (flat package TValues file) -/

/-- `net.IP.Equal` from the Go standard library: byte equality, with a
4-byte address equal to its 16-byte IPv4-mapped form. -/
def v4InV6Prefix : List Nat := [0, 0, 0, 0, 0, 0, 0, 0, 0, 0, 0xff, 0xff]

def ipEqual (ip x : List Nat) : Bool :=
  if ip.length = x.length then ip == x
  else if ip.length = 4 ∧ x.length = 16 then
    (x.take 12 == v4InV6Prefix) && (ip == x.drop 12)
  else if ip.length = 16 ∧ x.length = 4 then
    (ip.take 12 == v4InV6Prefix) && (ip.drop 12 == x)
  else false

/-- `CompareExpiry` relative to the current time `now` (a parameter, the
code reads `time.Now().Unix()`). -/
def TValues.CompareExpiry (tv : TValues) (now : Int) : Int :=
  if tv.Expires < now then -1
  else if tv.Expires > now + secondsPerYear then 1
  else 0

def TValues.ValidExpiry (tv : TValues) (now : Int) : Bool :=
  if tv.Expires = 0 then true else tv.CompareExpiry now == 0

def TValues.NoIP (tv : TValues) : Bool := tv.IP.length == 0

/-- `ValidIP`: `remote` is the parsed `net.ParseIP` of the request's
`SplitHostPort` host — `none` when `SplitHostPort` fails. -/
def TValues.ValidIP (tv : TValues) (remote : Option (List Nat)) : Except String Unit :=
  if tv.NoIP then .ok ()
  else
    match remote with
    | none => .error "checking token but bad remote address"
    | some x => if ipEqual tv.IP x then .ok () else .error "token IP mismatch"

/-- `Valid`: expiry window then address match. -/
def TValues.Valid (tv : TValues) (now : Int) (remote : Option (List Nat)) :
    Except String Unit :=
  if ¬ tv.ValidExpiry now then .error "expired or malformed or date in the far future"
  else tv.ValidIP remote

/-- `Bool` getter: checkRead, then 0 bytes is false, 1 byte is true, more is
an error. -/
def TValues.Bool (tv : TValues) (key : Int) : Except String Bool := do
  let _ ← tv.checkRead key
  let b := tv.Values.getD key.toNat []
  match b.length with
  | 0 => .ok false
  | 1 => .ok true
  | _ => .error "got more than 1 byte for boolean encoding"

/-! ## Helper lemmas -/

/-- Go's truncated division by 20 in terms of Euclidean division. -/
theorem tdiv_twenty_eq (s : Int) :
    Int.tdiv s 20 = if 0 ≤ s then s / 20 else -((-s) / 20) := by
  rcases le_or_lt 0 s with h | h
  · rw [if_pos h, Int.tdiv_eq_ediv h (by norm_num)]
  · rw [if_neg (by omega)]
    have h2 : Int.tdiv s 20 = -Int.tdiv (-s) 20 := by
      rw [← Int.neg_tdiv, neg_neg]
    rw [h2, Int.tdiv_eq_ediv (by omega) (by norm_num)]

/-- A bitwise or with disjoint high bits is an addition. -/
theorem lor_shiftLeft_eq_add {k : Nat} (a b : Nat) (h : a < 2 ^ k) :
    a ||| (b <<< k) = a + b * 2 ^ k := by
  apply Nat.eq_of_testBit_eq
  intro i
  rw [Nat.testBit_lor, Nat.testBit_shiftLeft]
  rcases lt_or_ge i k with hik | hik
  · have h1 : decide (i ≥ k) = false := by simp; omega
    rw [h1]
    simp only [Bool.false_and, Bool.or_false]
    rw [Nat.testBit_to_div_mod, Nat.testBit_to_div_mod, decide_eq_decide]
    have h2 : (2 : Nat) ^ k = 2 ^ (k - i) * 2 ^ i := by
      rw [← pow_add]
      congr 1
      omega
    have h3 : (a + b * 2 ^ k) / 2 ^ i = a / 2 ^ i + b * 2 ^ (k - i) := by
      rw [h2, ← mul_assoc, Nat.add_mul_div_right _ _ (Nat.pos_pow_of_pos i (by norm_num))]
    rw [h3]
    have h4 : (2 : Nat) ^ (k - i) = 2 ^ (k - i - 1) * 2 := by
      rw [mul_comm, ← pow_succ']
      congr 1
      omega
    rw [h4, ← mul_assoc, Nat.add_mul_mod_self_right]
  · have h1 : decide (i ≥ k) = true := by simpa using hik
    rw [h1]
    simp only [Bool.true_and]
    have h0 : a.testBit i = false := by
      apply Nat.testBit_lt_two_pow
      exact lt_of_lt_of_le h (Nat.pow_le_pow_right (by norm_num) hik)
    rw [h0]
    simp only [Bool.false_or]
    rw [Nat.testBit_to_div_mod, Nat.testBit_to_div_mod, decide_eq_decide]
    have h2 : (2 : Nat) ^ i = 2 ^ k * 2 ^ (i - k) := by
      rw [← pow_add]
      congr 1
      omega
    have h3 : (a + b * 2 ^ k) / 2 ^ i = b / 2 ^ (i - k) := by
      rw [h2, ← Nat.div_div_eq_div_mul,
        Nat.add_mul_div_right _ _ (Nat.pos_pow_of_pos k (by norm_num)),
        Nat.div_eq_of_lt h, Nat.zero_add]
    rw [h3]

/-- The three little-endian expiry bytes decode back to the encoded value. -/
theorem internalExpiry_putInternalExpiry (e : Nat) (h : e < expiryMax) :
    internalExpiry (putInternalExpiry e) = e := by
  have hmax : e < 2 ^ 24 := by
    simpa [expiryMax, expiryBits, ExpirySize, Nat.shiftLeft_eq] using h
  simp only [internalExpiry, putInternalExpiry, List.getD_cons_zero, List.getD_cons_succ]
  rw [Nat.shiftRight_eq_div_pow, Nat.shiftRight_eq_div_pow]
  rw [lor_shiftLeft_eq_add _ _ (by omega : e % 256 < 2 ^ 8)]
  rw [lor_shiftLeft_eq_add _ _ (by omega : e % 256 + e / 2 ^ 8 % 256 * 2 ^ 8 < 2 ^ 16)]
  omega

/-- Boolean check that a built metadata byte decodes back to its inputs. -/
def metaFieldsOK (ipl : Nat) (c : Bool) (n : Nat) : Bool :=
  match NewMetadata ipl c n with
  | .ok m =>
    (Metadata.ipLength m == ipl) && (Metadata.IsCompressed m == c) &&
      (Metadata.NValues m == n) && (m < 256)
  | .error _ => false

/-- Bounded decision form of the metadata round trip, checked by `decide`
over the 192 reachable cases. -/
theorem newMetadata_fields_bounded :
    ∀ ipl ∈ [0, 4, 16], ∀ c : Bool, ∀ n, n < 32 → metaFieldsOK ipl c n = true := by
  decide

/-- Round trip of the metadata byte for the reachable inputs. -/
theorem newMetadata_fields {ipl : Nat} (c : Bool) {n m : Nat}
    (hip : ipl = 0 ∨ ipl = 4 ∨ ipl = 16) (hn : n ≤ MaxValues)
    (h : NewMetadata ipl c n = .ok m) :
    Metadata.ipLength m = ipl ∧ Metadata.IsCompressed m = c ∧
      Metadata.NValues m = n ∧ m < 256 := by
  have hb := newMetadata_fields_bounded ipl (by simpa using hip) c n
    (by simpa [MaxValues, maskNValues] using Nat.lt_succ_of_le hn)
  rw [metaFieldsOK, h] at hb
  simp only [Bool.and_eq_true, beq_iff_eq, decide_eq_true_eq] at hb
  exact ⟨hb.1.1.1, hb.1.1.2, hb.1.2, hb.2⟩

/-- `NewMetadata` succeeds exactly on the well-formed inputs. -/
theorem newMetadata_ok_iff (ipl : Nat) (c : Bool) (n : Nat) :
    (∃ m, NewMetadata ipl c n = .ok m) ↔
      ((ipl = 0 ∨ ipl = 4 ∨ ipl = 16) ∧ n ≤ MaxValues) := by
  constructor
  · rintro ⟨m, hm⟩
    unfold NewMetadata at hm
    by_cases h0 : ipl = 0 <;> by_cases h4 : ipl = 4 <;> by_cases h16 : ipl = 16 <;>
      by_cases hn : n > MaxValues <;>
      simp_all
  · rintro ⟨hip, hn⟩
    unfold NewMetadata
    rcases hip with h | h | h <;> subst h <;>
      simp [Nat.not_lt.mpr hn, show ¬ n > MaxValues from Nat.not_lt.mpr hn]

/-- Error tester for `Except` results. -/
def isError {α : Type} : Except String α → Bool
  | .error _ => true
  | .ok _ => false

instance {ε α : Type} [DecidableEq ε] [DecidableEq α] : DecidableEq (Except ε α) := fun x y =>
  match x, y with
  | .error e, .error f => decidable_of_iff (e = f) (by simp)
  | .ok a, .ok b => decidable_of_iff (a = b) (by simp)
  | .error _, .ok _ => .isFalse (by simp)
  | .ok _, .error _ => .isFalse (by simp)

theorem internalToUnix_eq : internalToUnix = 1640961504 := by
  norm_num [internalToUnix, secondsPerYear]

theorem expiryMax_eq : expiryMax = 16777216 := by decide

theorem rangeInSeconds_eq : rangeInSeconds = 335544320 := by
  norm_num [rangeInSeconds, expiryMax_eq, PrecisionInSeconds]

/-! ## Claim C5 -/

/-- Claim C5 counterexample: the claim says a non-zero Unix time one second
below the start of the representable window is an error, and that an expiry
at the window start round-trips within 20 seconds.  In the code, one second
below the start (`1640961503 = internalToUnix - 1`) is accepted and encodes
to the internal value 0, and the window start itself (`1640961504`) also
encodes to 0, which decodes to the Unix time 0 — more than 20 seconds away. -/
theorem C5_counterexample :
    internalToUnix = 1640961504 ∧
    (1640961503 : Int) ≠ 0 ∧ (1640961503 : Int) < internalToUnix ∧
    unixToInternalExpiry 1640961503 = .ok 0 ∧
    unixToInternalExpiry 1640961504 = .ok 0 ∧
    internalExpiryToUnix 0 = 0 ∧
    ¬ ((internalExpiryToUnix 0 - 1640961504).natAbs ≤ 20) := by
  refine ⟨internalToUnix_eq, by decide, ?_, ?_, ?_, by decide, by decide⟩
  · rw [internalToUnix_eq]
    decide
  · decide
  · decide

/-- Error characterization of the expiry encoder. -/
theorem expiry_isError_iff (unix : Int) :
    isError (unixToInternalExpiry unix) = true ↔
      unix ≠ 0 ∧ (unix ≤ internalToUnix - 20 ∨ internalToUnix + rangeInSeconds ≤ unix) := by
  have hB := internalToUnix_eq
  have hR := rangeInSeconds_eq
  have hmax : (expiryMax : Int) = 16777216 := by rw [expiryMax_eq]; norm_num
  have hu : unixToInternal = -1640961504 := by rw [unixToInternal, hB]
  have ht := tdiv_twenty_eq (unix + unixToInternal)
  rw [hu] at ht
  · unfold unixToInternalExpiry
    by_cases h0 : unix = 0
    · simp [h0, isError]
    · simp only [h0, if_false, PrecisionInSeconds]
      rw [hu, hB, hR]
      rcases le_or_lt 0 (unix + -1640961504) with hs | hs
      · have htv : Int.tdiv (unix + -1640961504) 20 = (unix + -1640961504) / 20 := by
          rw [ht]
          exact if_pos hs
        rw [htv]
        split_ifs with h1 h2
        · simp only [isError, eq_self_iff_true, true_iff]
          exact ⟨h0, Or.inl (by omega)⟩
        · simp only [isError, eq_self_iff_true, true_iff]
          rw [hmax] at h2
          exact ⟨h0, Or.inr (by omega)⟩
        · simp only [isError, Bool.false_eq_true, false_iff]
          rw [hmax] at h2
          rintro ⟨-, h | h⟩
          · omega
          · omega
      · have htv : Int.tdiv (unix + -1640961504) 20 = -(-(unix + -1640961504) / 20) := by
          rw [ht]
          exact if_neg (by omega)
        rw [htv]
        split_ifs with h1 h2
        · simp only [isError, eq_self_iff_true, true_iff]
          exact ⟨h0, Or.inl (by omega)⟩
        · simp only [isError, eq_self_iff_true, true_iff]
          rw [hmax] at h2
          exact ⟨h0, Or.inl (by omega)⟩
        · simp only [isError, Bool.false_eq_true, false_iff]
          rintro ⟨-, h | h⟩
          · omega
          · omega
/-- Near the window start, a non-zero time encodes to the sentinel 0. -/
theorem expiry_ok_near (unix : Int) (h0 : unix ≠ 0)
    (hlo : internalToUnix - 20 < unix) (hhi : unix < internalToUnix + 20) :
    unixToInternalExpiry unix = .ok 0 := by
  have hB := internalToUnix_eq
  have hmax : (expiryMax : Int) = 16777216 := by rw [expiryMax_eq]; norm_num
  have hu : unixToInternal = -1640961504 := by rw [unixToInternal, hB]
  have ht := tdiv_twenty_eq (unix + unixToInternal)
  rw [hu] at ht
  · unfold unixToInternalExpiry
    simp only [h0, if_false, PrecisionInSeconds]
    rw [hB] at hlo hhi
    rw [hu]
    have hs0 : Int.tdiv (unix + -1640961504) 20 = 0 := by
      rw [ht]
      split_ifs with hs
      · omega
      · omega
    rw [hs0]
    have hm0 : ¬ ((0 : Int) ≥ (expiryMax : Int)) := by rw [hmax]; norm_num
    rw [if_neg (by norm_num), if_neg hm0]
    rfl
/-- In the proper window the encoder succeeds and round-trips within 20 s. -/
theorem expiry_roundtrip (unix : Int) (hlo : internalToUnix + 20 ≤ unix)
    (hhi : unix < internalToUnix + rangeInSeconds) :
    ∃ e, unixToInternalExpiry unix = .ok e ∧ 0 < e ∧
      (internalExpiryToUnix e - unix).natAbs ≤ 20 := by
  have hB := internalToUnix_eq
  have hR := rangeInSeconds_eq
  have hmax : (expiryMax : Int) = 16777216 := by rw [expiryMax_eq]; norm_num
  have hu : unixToInternal = -1640961504 := by rw [unixToInternal, hB]
  have ht := tdiv_twenty_eq (unix + unixToInternal)
  rw [hu] at ht
  · have h0 : ¬ (unix = 0) := by rw [hB] at hlo; omega
    unfold unixToInternalExpiry
    simp only [h0, if_false, PrecisionInSeconds]
    rw [hB] at hlo
    rw [hB, hR] at hhi
    rw [hu, ht]
    have hs : 0 ≤ unix + -1640961504 := by omega
    rw [if_pos hs]
    have he1 : 1 ≤ (unix + -1640961504) / 20 := by omega
    have he2 : (unix + -1640961504) / 20 < 16777216 := by omega
    have hm2 : ¬ ((unix + -1640961504) / 20 ≥ (expiryMax : Int)) := by
      rw [hmax]
      omega
    rw [if_neg (by omega), if_neg hm2]
    refine ⟨((unix + -1640961504) / 20).toNat, rfl, by omega, ?_⟩
    unfold internalExpiryToUnix
    rw [if_neg (by omega), PrecisionInSeconds, hB]
    have hc : (((unix + -1640961504) / 20).toNat : Int) = (unix + -1640961504) / 20 := by
      omega
    rw [hc]
    omega

/-- Claim C5, amended: encoding a non-zero Unix time fails exactly when it
is at most `internalToUnix - 20` or at least `internalToUnix + 2^24·20`;
the value 0 round-trips as 0; a non-zero time within 19 seconds either side
of `internalToUnix` is accepted but encodes to the internal value 0 (the
"no expiry" sentinel, decoded as 0); and times from `internalToUnix + 20`
up to the end of the window round-trip within 20 seconds. -/
theorem C5_expiry_window (unix : Int) :
    (unixToInternalExpiry 0 = .ok 0 ∧ internalExpiryToUnix 0 = 0) ∧
    (isError (unixToInternalExpiry unix) = true ↔
      unix ≠ 0 ∧ (unix ≤ internalToUnix - 20 ∨ internalToUnix + rangeInSeconds ≤ unix)) ∧
    (unix ≠ 0 → internalToUnix - 20 < unix → unix < internalToUnix + 20 →
      unixToInternalExpiry unix = .ok 0) ∧
    (internalToUnix + 20 ≤ unix → unix < internalToUnix + rangeInSeconds →
      ∃ e, unixToInternalExpiry unix = .ok e ∧ 0 < e ∧
        (internalExpiryToUnix e - unix).natAbs ≤ 20) :=
  ⟨⟨by decide, by decide⟩, expiry_isError_iff unix, expiry_ok_near unix,
    expiry_roundtrip unix⟩

/-- Witness for C5 at the concrete boundaries `internalToUnix + 20` and the
inner window. -/
theorem C5_expiry_window_witness :
    isError (unixToInternalExpiry 1640961484) = true ∧
    unixToInternalExpiry 1640961505 = .ok 0 ∧
    (∃ e, unixToInternalExpiry 1640961524 = .ok e ∧ 0 < e ∧
      (internalExpiryToUnix e - 1640961524).natAbs ≤ 20) := by
  refine ⟨?_, ?_, ?_⟩
  · exact (C5_expiry_window 1640961484).2.1.mpr
      ⟨by decide, Or.inl (by rw [internalToUnix_eq]; norm_num)⟩
  · exact (C5_expiry_window 1640961505).2.2.1 (by decide)
      (by rw [internalToUnix_eq]; norm_num) (by rw [internalToUnix_eq]; norm_num)
  · exact (C5_expiry_window 1640961524).2.2.2
      (by rw [internalToUnix_eq]; norm_num)
      (by rw [internalToUnix_eq, rangeInSeconds_eq]; norm_num)

/-! ## Claim C6 -/

theorem sum_one_add (vs : List (List Nat)) :
    (vs.map (fun v => 1 + v.length)).sum = vs.length + (vs.map List.length).sum := by
  induction vs with
  | nil => simp
  | cons v rest ih => simp [ih]; omega

/-- Claim C6: the compression decision depends only on
`payload_size = expiry_size + address_size + Σ(1 + |values[i]|)` and follows
the three-branch policy: below 50, never compress; in `[50, 99)`, both
outcomes are reachable depending on the PRNG draw (`rand.Int63() & 1`);
from 99 on, always compress. -/
theorem C6_compression_policy (r : Nat) (tv : TValues) :
    ((newSerializer r tv).payloadSize =
      ExpirySize + tv.IP.length + (tv.Values.map (fun v => 1 + v.length)).sum) ∧
    ((newSerializer r tv).compressed = doesCompress r (newSerializer r tv).payloadSize) ∧
    (∀ p, p < 50 → ∀ q, doesCompress q p = false) ∧
    (∀ p, 50 ≤ p → p < 99 → doesCompress 0 p = true ∧ doesCompress 1 p = false) ∧
    (∀ p, 99 ≤ p → ∀ q, doesCompress q p = true) := by
  refine ⟨?_, rfl, ?_, ?_, ?_⟩
  · simp [newSerializer, sum_one_add]
  · intro p hp q
    simp [doesCompress, sizeMayCompress, hp]
  · intro p hp1 hp2
    constructor <;>
      simp [doesCompress, sizeMayCompress, sizeMustCompress, Nat.not_lt.mpr hp1, hp2]
  · intro p hp q
    simp [doesCompress, sizeMayCompress, sizeMustCompress]
    omega

/-- Witness for C6 at concrete payload sizes. -/
theorem C6_compression_policy_witness :
    doesCompress 7 10 = false ∧ doesCompress 0 55 = true ∧
    doesCompress 1 55 = false ∧ doesCompress 7 120 = true := by
  refine ⟨?_, ?_, ?_, ?_⟩
  · exact (C6_compression_policy 7 EmptyTValues).2.2.1 10 (by norm_num) 7
  · exact ((C6_compression_policy 7 EmptyTValues).2.2.2.1 55 (by norm_num) (by norm_num)).1
  · exact ((C6_compression_policy 7 EmptyTValues).2.2.2.1 55 (by norm_num) (by norm_num)).2
  · exact (C6_compression_policy 7 EmptyTValues).2.2.2.2 120 (by norm_num) 7

/-! ## Serialization lemmas -/

/-- The byte string produced by a successful `appendValues` run. -/
def encValues : List (List Nat) → List Nat
  | [] => []
  | v :: rest => ((v.length % 256) :: v) ++ encValues rest

theorem encValues_length (vs : List (List Nat)) :
    (encValues vs).length = vs.length + (vs.map List.length).sum := by
  induction vs with
  | nil => simp [encValues]
  | cons v rest ih => simp [encValues, ih]; omega

theorem appendValues_ok {vs : List (List Nat)} (h : ∀ v ∈ vs, v.length ≤ 255) :
    ∀ buf, appendValues buf vs = .ok (buf ++ encValues vs) := by
  induction vs with
  | nil => intro buf; simp [appendValues, encValues]
  | cons v rest ih =>
    intro buf
    have hv : ¬ (v.length > 255) := by
      have := h v (by simp)
      omega
    rw [appendValues, if_neg hv, ih (fun w hw => h w (by simp [hw]))]
    simp [encValues]

theorem appendValues_ok_iff (vs : List (List Nat)) (buf : List Nat) :
    (∃ out, appendValues buf vs = .ok out) ↔ ∀ v ∈ vs, v.length ≤ 255 := by
  induction vs generalizing buf with
  | nil => simp [appendValues]
  | cons w rest ih =>
    constructor
    · rintro ⟨out, hout⟩
      rw [appendValues] at hout
      by_cases hw : w.length > 255
      · rw [if_pos hw] at hout
        cases hout
      · rw [if_neg hw] at hout
        intro v hv
        rcases List.mem_cons.mp hv with hv | hv
        · subst hv
          omega
        · exact ((ih _).mp ⟨out, hout⟩) v hv
    · intro h
      exact ⟨_, appendValues_ok h buf⟩

theorem parseValues_encValues {vs : List (List Nat)} (h : ∀ v ∈ vs, v.length ≤ 255) :
    parseValues (encValues vs) vs.length = .ok vs := by
  induction vs with
  | nil => simp [encValues, parseValues]
  | cons v rest ih =>
    have hv : v.length % 256 = v.length := Nat.mod_eq_of_lt (by
      have := h v (by simp)
      omega)
    have hlen : (encValues rest).length = rest.length + (rest.map List.length).sum :=
      encValues_length rest
    rw [show encValues (v :: rest) = (v.length % 256) :: (v ++ encValues rest) by
      simp [encValues]]
    simp only [List.length_cons]
    rw [parseValues]
    rw [if_neg (by simp; omega)]
    rw [hv]
    rw [if_neg (by simp)]
    rw [List.take_left, List.drop_left]
    rw [ih (fun w hw => h w (by simp [hw]))]
    rfl

/-- The uncompressed payload written after the 3-byte header. -/
def payloadBytes (e : Nat) (tv : TValues) : List Nat :=
  putInternalExpiry e ++ tv.IP ++ encValues tv.Values

theorem payloadBytes_length (e : Nat) (tv : TValues) :
    (payloadBytes e tv).length =
      ExpirySize + tv.IP.length + (tv.Values.length + (tv.Values.map List.length).sum) := by
  simp [payloadBytes, putInternalExpiry, encValues_length, ExpirySize]
  omega

/-- A successful `unixToInternalExpiry` always fits the 3-byte field. -/
theorem expiry_ok_lt {unix : Int} {e : Nat} (h : unixToInternalExpiry unix = .ok e) :
    e < expiryMax := by
  simp only [unixToInternalExpiry] at h
  split_ifs at h with h0 h1 h2
  · cases h
    rw [expiryMax_eq]
    norm_num
  · cases h
    rw [expiryMax_eq] at h2 ⊢
    omega

theorem exceptBind_ok {α β : Type} (a : α) (f : α → Except String β) :
    (Except.ok a : Except String α) >>= f = f a := rfl

theorem exceptBind_error {α β : Type} (msg : String) (f : α → Except String β) :
    (Except.error msg : Except String α) >>= f = .error msg := rfl

/-- Structure of a successful `Marshal` run. -/
theorem marshal_ok (s2enc : List Nat → List Nat) (r salt magic : Nat) (tv : TValues)
    (hv : tv.Values.length ≤ MaxValues)
    (hvl : ∀ v ∈ tv.Values, v.length ≤ 255)
    (hip : tv.IP.length = 0 ∨ tv.IP.length = 4 ∨ tv.IP.length = 16)
    {e : Nat} (he : unixToInternalExpiry tv.Expires = .ok e)
    (hs2 : ∀ x, (s2enc x).length ≤ x.length) :
    ∃ m, NewMetadata tv.IP.length (newSerializer r tv).compressed tv.Values.length = .ok m ∧
      Marshal s2enc r salt tv magic = .ok (
        [magic, salt % 256, m] ++
          (if (newSerializer r tv).compressed then s2enc (payloadBytes e tv)
            else payloadBytes e tv)) := by
  obtain ⟨m, hm⟩ := (newMetadata_ok_iff tv.IP.length (newSerializer r tv).compressed
    tv.Values.length).mpr ⟨hip, hv⟩
  refine ⟨m, hm, ?_⟩
  have hf1 : (newSerializer r tv).ipLength = tv.IP.length := rfl
  have hf2 : (newSerializer r tv).nValues = tv.Values.length := rfl
  have hps : (newSerializer r tv).payloadSize =
      ExpirySize + tv.IP.length + (tv.Values.length + (tv.Values.map List.length).sum) := rfl
  simp only [Marshal, putHeaderExpiryIP, hf1, hf2, hm, he, exceptBind_ok]
  rw [appendValues_ok hvl]
  simp only [exceptBind_ok]
  have hblen : (([magic, salt % 256, m] ++ putInternalExpiry e ++ tv.IP) ++
      encValues tv.Values).length = HeaderSize + (newSerializer r tv).payloadSize := by
    simp [putInternalExpiry, encValues_length, HeaderSize, hps, ExpirySize]
    omega
  rw [if_neg (by rw [hblen]; simp)]
  have hdrop : (([magic, salt % 256, m] ++ putInternalExpiry e ++ tv.IP) ++
      encValues tv.Values).drop HeaderSize = payloadBytes e tv := by
    simp [putInternalExpiry, payloadBytes, HeaderSize]
  have htake : (([magic, salt % 256, m] ++ putInternalExpiry e ++ tv.IP) ++
      encValues tv.Values).take HeaderSize = [magic, salt % 256, m] := by
    simp [putInternalExpiry, HeaderSize]
  by_cases hc : (newSerializer r tv).compressed
  · rw [if_pos hc, hdrop]
    rw [if_neg ?hlen]
    case hlen =>
      have h1 := hs2 (payloadBytes e tv)
      have h2 := payloadBytes_length e tv
      rw [hps]
      omega
    rw [htake]
    simp [hc]
  · rw [if_neg hc]
    simp only [hc, if_false]
    congr 1

/-- `Unmarshal` inverts `Marshal` (up to the expiry recoding) whenever the
external s2 compressor round-trips, never expands, and never shrinks the
payload below the 3 expiry bytes. -/
theorem unmarshal_marshal (s2enc : List Nat → List Nat)
    (s2dec : List Nat → Except String (List Nat)) (r salt magic : Nat) (tv : TValues)
    (hv : tv.Values.length ≤ MaxValues)
    (hvl : ∀ v ∈ tv.Values, v.length ≤ 255)
    (hip : tv.IP.length = 0 ∨ tv.IP.length = 4 ∨ tv.IP.length = 16)
    {e : Nat} (he : unixToInternalExpiry tv.Expires = .ok e)
    (hs2 : ∀ x, (s2enc x).length ≤ x.length)
    (hs2inv : ∀ x, s2dec (s2enc x) = .ok x)
    (hs2min : ∀ x, 3 ≤ x.length → 3 ≤ (s2enc x).length) :
    ∃ b, Marshal s2enc r salt tv magic = .ok b ∧ MagicCode b = magic ∧
      Unmarshal s2dec b =
        .ok { Expires := internalExpiryToUnix e, IP := tv.IP, Values := tv.Values } := by
  obtain ⟨m, hm, hb⟩ := marshal_ok s2enc r salt magic tv hv hvl hip he hs2
  obtain ⟨hmip, hmc, hmn, hmlt⟩ := newMetadata_fields _ hip hv hm
  refine ⟨_, hb, rfl, ?_⟩
  have hplen := payloadBytes_length e tv
  have hie : internalExpiry (payloadBytes e tv) = e := by
    have h1 : internalExpiry (payloadBytes e tv) = internalExpiry (putInternalExpiry e) := rfl
    rw [h1, internalExpiry_putInternalExpiry e (expiry_ok_lt he)]
  have hdropExp : (payloadBytes e tv).drop ExpirySize = tv.IP ++ encValues tv.Values := rfl
  have htake_ip : (tv.IP ++ encValues tv.Values).take (Metadata.ipLength m) = tv.IP := by
    rw [hmip]
    exact List.take_left _ _
  have hdrop_ip : (tv.IP ++ encValues tv.Values).drop (Metadata.ipLength m) =
      encValues tv.Values := by
    rw [hmip]
    exact List.drop_left _ _
  have hpv : parseValues (encValues tv.Values) (Metadata.NValues m) = .ok tv.Values := by
    rw [hmn]
    exact parseValues_encValues hvl
  have hminsize : ¬ ((payloadBytes e tv).length < Metadata.PayloadMinSize m) := by
    rw [Metadata.PayloadMinSize, hmip, hmn, hplen]
    simp [encValues_length]
  have hminsize2 : ((payloadBytes e tv).length < Metadata.PayloadMinSize m) = False :=
    eq_false hminsize
  by_cases hc : (newSerializer r tv).compressed
  · have hbody : 3 ≤ (s2enc (payloadBytes e tv)).length := by
      refine hs2min _ ?_
      rw [hplen, show ExpirySize = 3 from rfl]
      omega
    simp only [hc, if_true]
    unfold Unmarshal
    have hlen1 : ¬ (([magic, salt % 256, m] ++ s2enc (payloadBytes e tv)).length <
        HeaderSize + ExpirySize) := by
      simp only [List.length_append, List.length_cons, List.length_nil,
        HeaderSize, ExpirySize]
      omega
    rw [if_neg hlen1]
    have hmeta : GetMetadata ([magic, salt % 256, m] ++
        s2enc (payloadBytes e tv)) = m := rfl
    have hdrop3 : ([magic, salt % 256, m] ++ s2enc (payloadBytes e tv)).drop HeaderSize =
        s2enc (payloadBytes e tv) := rfl
    simp only [hmeta, hdrop3, hmc, hc, eq_self_iff_true, if_true, hs2inv, exceptBind_ok,
      hminsize2, if_false, DecodeExpiry, Metadata.DecodeIP, hdropExp, hie, htake_ip,
      hdrop_ip, hpv]
  · simp only [hc, Bool.false_eq_true, if_false]
    unfold Unmarshal
    have hlen1 : ¬ (([magic, salt % 256, m] ++ payloadBytes e tv).length <
        HeaderSize + ExpirySize) := by
      simp only [List.length_append, List.length_cons, List.length_nil,
        HeaderSize, ExpirySize, hplen]
      omega
    rw [if_neg hlen1]
    have hmeta : GetMetadata ([magic, salt % 256, m] ++ payloadBytes e tv) = m := rfl
    have hdrop3 : ([magic, salt % 256, m] ++ payloadBytes e tv).drop HeaderSize =
        payloadBytes e tv := rfl
    simp only [hmeta, hdrop3, hmc, hc, Bool.false_eq_true, if_false, exceptBind_ok,
      hminsize2, DecodeExpiry, Metadata.DecodeIP, hdropExp, hie, htake_ip, hdrop_ip, hpv]

theorem isError_eq_true_iff {α : Type} (x : Except String α) :
    isError x = true ↔ ¬ ∃ v, x = .ok v := by
  cases x <;> simp [isError]

/-- The three fallible stages of `Marshal`, in evaluation order; the length
check and the compression copy never fail when the compressor does not
expand its input. -/
theorem marshal_isError_cases (s2enc : List Nat → List Nat) (r salt magic : Nat)
    (tv : TValues) (hs2 : ∀ x, (s2enc x).length ≤ x.length) :
    isError (Marshal s2enc r salt tv magic) = true ↔
      (isError (NewMetadata tv.IP.length (newSerializer r tv).compressed
          tv.Values.length) = true ∨
        isError (unixToInternalExpiry tv.Expires) = true ∨
        ∃ v ∈ tv.Values, 255 < v.length) := by
  have hf1 : (newSerializer r tv).ipLength = tv.IP.length := rfl
  have hf2 : (newSerializer r tv).nValues = tv.Values.length := rfl
  rcases hNM : NewMetadata tv.IP.length (newSerializer r tv).compressed tv.Values.length
      with msg | m
  · simp only [Marshal, putHeaderExpiryIP, hf1, hf2, hNM, exceptBind_error, isError]
    simp
  · rcases hE : unixToInternalExpiry tv.Expires with msg | e
    · simp only [Marshal, putHeaderExpiryIP, hf1, hf2, hNM, hE, exceptBind_ok,
        exceptBind_error, isError]
      simp [isError]
    · by_cases hvl : ∀ v ∈ tv.Values, v.length ≤ 255
      · by_cases hok : ∃ mm, NewMetadata tv.IP.length (newSerializer r tv).compressed
            tv.Values.length = .ok mm
        · obtain ⟨hip, hn⟩ := (newMetadata_ok_iff _ _ _).mp hok
          obtain ⟨m2, _, hb⟩ := marshal_ok s2enc r salt magic tv hn hvl hip hE hs2
          rw [hb]
          simp only [isError, Bool.false_eq_true, false_iff]
          push_neg
          refine ⟨by simp [hNM, isError], by simp [hE, isError], ?_⟩
          intro v hv
          have := hvl v hv
          omega
        · exact absurd ⟨m, hNM⟩ hok
      · push_neg at hvl
        obtain ⟨v, hv, hvlen⟩ := hvl
        have hA : isError (appendValues ([magic, salt % 256, m] ++
            putInternalExpiry e ++ tv.IP) tv.Values) = true := by
          rw [isError_eq_true_iff]
          intro hex
          have := (appendValues_ok_iff tv.Values _).mp hex v hv
          omega
        rcases hA2 : appendValues ([magic, salt % 256, m] ++
            putInternalExpiry e ++ tv.IP) tv.Values with msg2 | out
        · simp only [Marshal, putHeaderExpiryIP, hf1, hf2, hNM, hE, exceptBind_ok,
            hA2, exceptBind_error, isError]
          simp only [eq_self_iff_true, true_iff]
          right
          right
          exact ⟨v, hv, hvlen⟩
        · rw [hA2] at hA
          simp [isError] at hA

/-! ## Claim C3 -/

/-- Claim C3 counterexample: a `TValues` with no values, no expiry and a
3-byte IP slice satisfies every error condition named by the claim (at most
31 values, all values at most 255 bytes, expiry in range), yet `Marshal`
returns an error, because the IP length is not 0, 4 or 16. -/
theorem C3_counterexample :
    isError (Marshal (fun x => x) 1 0
      { Expires := 0, IP := [1, 2, 3], Values := [] } 7) = true ∧
    ({ Expires := 0, IP := [1, 2, 3], Values := [] } : TValues).Values.length ≤ 31 ∧
    (∀ v ∈ ({ Expires := 0, IP := [1, 2, 3], Values := [] } : TValues).Values,
      v.length ≤ 255) ∧
    ({ Expires := 0, IP := [1, 2, 3], Values := [] } : TValues).Expires = 0 := by
  refine ⟨by decide, by decide, ?_, by decide⟩
  intro v hv
  cases hv

/-- Claim C3, amended: provided the external compressor does not expand the
payload, `Marshal` returns an error iff the `TValues` has more than 31
values, or a value longer than 255 bytes, or an IP whose length is not 0, 4
or 16, or a non-zero expiry at most `internalToUnix - 20` or at least
`internalToUnix + 2^24·20`; on success the first byte of the buffer is the
instance magic and the metadata byte agrees with the value count, the IP
length and the compression decision. -/
theorem C3_marshal_contract (s2enc : List Nat → List Nat) (r salt magic : Nat)
    (tv : TValues) (hs2 : ∀ x, (s2enc x).length ≤ x.length) :
    (isError (Marshal s2enc r salt tv magic) = true ↔
      (MaxValues < tv.Values.length ∨ (∃ v ∈ tv.Values, 255 < v.length) ∨
        ¬ (tv.IP.length = 0 ∨ tv.IP.length = 4 ∨ tv.IP.length = 16) ∨
        (tv.Expires ≠ 0 ∧ (tv.Expires ≤ internalToUnix - 20 ∨
          internalToUnix + rangeInSeconds ≤ tv.Expires)))) ∧
    (∀ b, Marshal s2enc r salt tv magic = .ok b →
      MagicCode b = magic ∧
      Metadata.NValues (GetMetadata b) = tv.Values.length ∧
      Metadata.ipLength (GetMetadata b) = tv.IP.length ∧
      Metadata.IsCompressed (GetMetadata b) = (newSerializer r tv).compressed) := by
  have hNMiff : isError (NewMetadata tv.IP.length (newSerializer r tv).compressed
      tv.Values.length) = true ↔
      ¬ ((tv.IP.length = 0 ∨ tv.IP.length = 4 ∨ tv.IP.length = 16) ∧
        tv.Values.length ≤ MaxValues) := by
    rw [isError_eq_true_iff, not_iff_not]
    exact newMetadata_ok_iff _ _ _
  constructor
  · rw [marshal_isError_cases s2enc r salt magic tv hs2, hNMiff, expiry_isError_iff]
    constructor
    · rintro (h | h | h)
      · by_cases hip : tv.IP.length = 0 ∨ tv.IP.length = 4 ∨ tv.IP.length = 16
        · left
          omega
        · right; right; left
          exact hip
      · right; right; right
        exact h
      · right; left
        exact h
    · rintro (h | h | h | h)
      · left
        intro hand
        omega
      · right; right
        exact h
      · left
        intro hand
        exact h hand.1
      · right; left
        exact h
  · intro b hb
    have hok : ¬ (isError (Marshal s2enc r salt tv magic) = true) := by
      rw [hb]
      simp [isError]
    rw [marshal_isError_cases s2enc r salt magic tv hs2] at hok
    push_neg at hok
    obtain ⟨hnm, hexp, hval⟩ := hok
    simp only [ne_eq] at hnm hexp
    rw [hNMiff] at hnm
    push_neg at hnm
    obtain ⟨hip, hn⟩ := hnm
    obtain ⟨e, he⟩ : ∃ e, unixToInternalExpiry tv.Expires = .ok e := by
      rcases hE : unixToInternalExpiry tv.Expires with msg | e
      · rw [hE] at hexp
        simp [isError] at hexp
      · exact ⟨e, rfl⟩
    have hvl : ∀ v ∈ tv.Values, v.length ≤ 255 := by
      intro v hv
      have := hval v hv
      omega
    obtain ⟨m, hm, hb2⟩ := marshal_ok s2enc r salt magic tv hn hvl hip he hs2
    rw [hb] at hb2
    injection hb2 with hbe
    subst hbe
    obtain ⟨hmip, hmc, hmn, _⟩ := newMetadata_fields _ hip hn hm
    have hget : GetMetadata ([magic, salt % 256, m] ++
        (if (newSerializer r tv).compressed then s2enc (payloadBytes e tv)
          else payloadBytes e tv)) = m := rfl
    rw [hget]
    exact ⟨rfl, hmn, hmip, hmc⟩

/-- Witness for C3: a well-formed record marshals without error, with the
magic byte and consistent metadata. -/
theorem C3_marshal_contract_witness :
    isError (Marshal (fun x => x) 1 0
      { Expires := 0, IP := [10, 0, 0, 1], Values := [[7]] } 9) = false ∧
    (∀ b, Marshal (fun x => x) 1 0
        { Expires := 0, IP := [10, 0, 0, 1], Values := [[7]] } 9 = .ok b →
      MagicCode b = 9 ∧ Metadata.NValues (GetMetadata b) = 1 ∧
        Metadata.ipLength (GetMetadata b) = 4) := by
  have h := C3_marshal_contract (fun x => x) 1 0 9
    { Expires := 0, IP := [10, 0, 0, 1], Values := [[7]] } (fun x => Nat.le_refl _)
  constructor
  · have h2 := h.1
    by_cases hE : isError (Marshal (fun x => x) 1 0
        { Expires := 0, IP := [10, 0, 0, 1], Values := [[7]] } 9) = true
    · exfalso
      have h3 := h2.mp hE
      revert h3
      decide
    · simpa using hE
  · intro b hb
    have h4 := h.2 b hb
    exact ⟨h4.1, h4.2.1, h4.2.2.1⟩

/-! ## Claim C1 -/

/-- Claim C1, amended: for a `TValues` with at most 31 values of at most 255
bytes, an IP of length 0, 4 or 16 and an expiry that is 0 or in
`[internalToUnix + 20, internalToUnix + 2^24·20)`, and for external
collaborators meeting their contracts (an AEAD with 12-byte nonce and
16-byte tag whose Open inverts Seal, a Base91 codec that inverts itself
and emits at least 42 characters, an s2 codec that round-trips without
expanding and keeps at least 3 bytes), `Decode(Encode(tv))` succeeds and
returns the same IP and values and an expiry equal to 0 when the input was
0 and otherwise within 20 seconds of the input.  (The claim as stated also
admits expiries in `[internalToUnix, internalToUnix + 20)`; those decode to
0, see the counterexample.) -/
theorem C1_roundtrip (s2enc : List Nat → List Nat)
    (s2dec : List Nat → Except String (List Nat)) (incorr : Incorruptible)
    (r salt : Nat) (nonce : List Nat) (tv : TValues)
    (hv : tv.Values.length ≤ MaxValues)
    (hvl : ∀ v ∈ tv.Values, v.length ≤ 255)
    (hip : tv.IP.length = 0 ∨ tv.IP.length = 4 ∨ tv.IP.length = 16)
    (hexp : tv.Expires = 0 ∨ (internalToUnix + 20 ≤ tv.Expires ∧
      tv.Expires < internalToUnix + rangeInSeconds))
    (hs2 : ∀ x, (s2enc x).length ≤ x.length)
    (hs2inv : ∀ x, s2dec (s2enc x) = .ok x)
    (hs2min : ∀ x, 3 ≤ x.length → 3 ≤ (s2enc x).length)
    (hnsz : incorr.cipher.nonceSize = aesNonceSize)
    (hnonce : nonce.length = incorr.cipher.nonceSize)
    (hseal : ∀ n p, (incorr.cipher.Seal n p).length = p.length + gcmTagSize)
    (hopen : ∀ n p, incorr.cipher.Open n (incorr.cipher.Seal n p) = .ok p)
    (hb91 : ∀ x, incorr.baseNDec (incorr.baseNEnc x) = .ok x)
    (hb91len : ∀ x, Base91MinSize ≤ (incorr.baseNEnc x).length) :
    ∃ tok tv2, Encode s2enc incorr r salt nonce tv = .ok tok ∧
      Decode s2dec incorr tok = .ok tv2 ∧
      tv2.IP = tv.IP ∧ tv2.Values = tv.Values ∧
      (tv.Expires = 0 → tv2.Expires = 0) ∧
      (tv.Expires ≠ 0 → (tv2.Expires - tv.Expires).natAbs ≤ 20) := by
  obtain ⟨e, he, hez, hen⟩ : ∃ e, unixToInternalExpiry tv.Expires = .ok e ∧
      (tv.Expires = 0 → internalExpiryToUnix e = 0) ∧
      (tv.Expires ≠ 0 → (internalExpiryToUnix e - tv.Expires).natAbs ≤ 20) := by
    rcases hexp with h0 | hw
    · refine ⟨0, ?_, fun _ => by decide, fun hne => absurd h0 hne⟩
      rw [h0]
      decide
    · obtain ⟨e, he, _, hdist⟩ := expiry_roundtrip tv.Expires hw.1 hw.2
      refine ⟨e, he, fun h0 => ?_, fun _ => hdist⟩
      exfalso
      have := hw.1
      rw [internalToUnix_eq] at this
      omega
  obtain ⟨b, hmar, hmag, hum⟩ := unmarshal_marshal s2enc s2dec r salt incorr.magic tv
    hv hvl hip he hs2 hs2inv hs2min
  have hb6 : ¬ (b.length < HeaderSize + ExpirySize) := by
    intro hlt
    unfold Unmarshal at hum
    rw [if_pos hlt] at hum
    cases hum
  refine ⟨incorr.baseNEnc (Encrypt incorr.cipher nonce b),
    { Expires := internalExpiryToUnix e, IP := tv.IP, Values := tv.Values },
    ?_, ?_, rfl, rfl, hez, hen⟩
  · simp only [Encode, hmar, exceptBind_ok]
  · have hlen42 : ¬ ((incorr.baseNEnc (Encrypt incorr.cipher nonce b)).length <
        Base91MinSize) := by
      have := hb91len (Encrypt incorr.cipher nonce b)
      omega
    have henc : (Encrypt incorr.cipher nonce b).length =
        aesNonceSize + b.length + gcmTagSize := by
      simp only [Encrypt, List.length_append, hseal, hnonce, hnsz]
      omega
    have hlen34 : ¬ ((Encrypt incorr.cipher nonce b).length < encryptedMinSize) := by
      rw [henc]
      simp only [encryptedMinSize, aesNonceSize, ciphertextMinSize, gcmTagSize]
      simp only [HeaderSize, ExpirySize] at hb6
      omega
    have hdec : Decrypt incorr.cipher (Encrypt incorr.cipher nonce b) = .ok b := by
      unfold Decrypt Encrypt
      rw [← hnonce, List.take_left, List.drop_left]
      exact hopen nonce b
    have hmagic2 : ¬ (MagicCode b ≠ incorr.magic) := by
      rw [hmag]
      exact fun h => h rfl
    simp only [Decode, hlen42, if_false, hb91, exceptBind_ok, hlen34, hdec,
      hmagic2, hum]

/-- Trivial AEAD used to instantiate the external-collaborator parameters
in concrete evaluations: the tag is 16 zero bytes. -/
def cipherW : AEAD :=
  { nonceSize := 12
    Seal := fun _ p => p ++ List.replicate 16 0
    Open := fun _ c => .ok (c.take (c.length - 16)) }

/-- Concrete instance for the C1 counterexample: identity-like Base91 pair
padding with 8 filler characters. -/
def incW : Incorruptible :=
  { magic := 7
    cipher := cipherW
    baseNEnc := fun x => x ++ List.replicate 8 2
    baseNDec := fun y => .ok (y.take (y.length - 8)) }

/-- Claim C1 counterexample: the record with expiry `internalToUnix`
(= 1640961504, inside the representable window), empty IP and no values is
valid in the claim's sense, yet Decode(Encode(tv)) returns expiry 0, which
is not within 20 seconds of the input. -/
theorem C1_counterexample :
    ((Encode (fun x => x) incW 1 0 (List.replicate 12 0)
        { Expires := 1640961504, IP := [], Values := [] }).toOption.bind
      (fun tok => (Decode (fun x => .ok x) incW tok).toOption)) =
      some { Expires := 0, IP := [], Values := [] } ∧
    internalToUnix ≤ 1640961504 ∧ (1640961504 : Int) < internalToUnix + rangeInSeconds ∧
    ({ Expires := 1640961504, IP := [], Values := [] } : TValues).Values.length ≤ 31 ∧
    ({ Expires := 1640961504, IP := [], Values := [] } : TValues).IP.length = 0 ∧
    ¬ (((0 : Int) - 1640961504).natAbs ≤ 20) := by
  refine ⟨by decide, ?_, ?_, by decide, by decide, by decide⟩
  · rw [internalToUnix_eq]
  · rw [internalToUnix_eq, rangeInSeconds_eq]
    decide

/-- Instance for the C1 witness: Base91 stage pads with 42 filler
characters so that every encoding meets the minimum-length contract. -/
def incW2 : Incorruptible :=
  { magic := 9
    cipher := cipherW
    baseNEnc := fun x => x ++ List.replicate 42 2
    baseNDec := fun y => .ok (y.take (y.length - 42)) }

/-- Witness for C1 at a concrete valid record, with all collaborator
contracts discharged on the trivial instances. -/
theorem C1_roundtrip_witness :
    ∃ tok tv2, Encode (fun x => x) incW2 1 0 (List.replicate 12 0)
        { Expires := 1640961524, IP := [127, 0, 0, 1], Values := [[1, 2]] } = .ok tok ∧
      Decode (fun x => .ok x) incW2 tok = .ok tv2 ∧
      tv2.IP = [127, 0, 0, 1] ∧ tv2.Values = [[1, 2]] ∧
      ((1640961524 : Int) = 0 → tv2.Expires = 0) ∧
      ((1640961524 : Int) ≠ 0 → (tv2.Expires - 1640961524).natAbs ≤ 20) := by
  exact C1_roundtrip (fun x => x) (fun x => .ok x) incW2 1 0 (List.replicate 12 0)
    { Expires := 1640961524, IP := [127, 0, 0, 1], Values := [[1, 2]] }
    (by decide) (by decide)
    (by decide)
    (by right; rw [internalToUnix_eq, rangeInSeconds_eq]; constructor <;> decide)
    (fun x => Nat.le_refl _) (fun x => rfl) (fun x h => h)
    rfl (by decide)
    (fun n p => by simp [incW2, cipherW, gcmTagSize])
    (fun n p => by simp [incW2, cipherW])
    (fun x => by simp [incW2])
    (fun x => by simp [incW2, Base91MinSize])

/-! ## Claim C4 -/

/-- Claim C4: the Decode rejection pipeline, in order.  A string shorter
than 42 characters is rejected with the length error for every instance —
in particular for arbitrary Base91 and AEAD functions, so neither is
invoked; after Base91 decoding, a buffer shorter than
`nonceSize + minimum payload + tagSize = 12 + 6 + 16 = 34` bytes is
rejected; an AEAD open failure propagates as the Decode error; a plaintext
whose first byte differs from the instance magic is rejected with the magic
error, not a deserialization result. -/
theorem C4_decode_rejection (s2dec : List Nat → Except String (List Nat))
    (incorr : Incorruptible) (str enc pt : List Nat) (msg : String) :
    (Base91MinSize = 42 ∧
      encryptedMinSize = aesNonceSize + ciphertextMinSize + gcmTagSize ∧
      encryptedMinSize = 12 + 6 + 16) ∧
    (str.length < Base91MinSize →
      Decode s2dec incorr str = .error "BasE91 text too short") ∧
    (¬ str.length < Base91MinSize → incorr.baseNDec str = .ok enc →
      enc.length < encryptedMinSize →
      Decode s2dec incorr str = .error "encrypted data too short") ∧
    (¬ str.length < Base91MinSize → incorr.baseNDec str = .ok enc →
      ¬ enc.length < encryptedMinSize → Decrypt incorr.cipher enc = .error msg →
      Decode s2dec incorr str = .error msg) ∧
    (¬ str.length < Base91MinSize → incorr.baseNDec str = .ok enc →
      ¬ enc.length < encryptedMinSize → Decrypt incorr.cipher enc = .ok pt →
      MagicCode pt ≠ incorr.magic →
      Decode s2dec incorr str = .error "bad magic code") := by
  refine ⟨⟨rfl, rfl, rfl⟩, ?_, ?_, ?_, ?_⟩
  · intro h
    unfold Decode
    rw [if_pos h]
  · intro h1 h2 h3
    unfold Decode
    rw [if_neg h1, h2]
    simp only [exceptBind_ok]
    rw [if_pos h3]
  · intro h1 h2 h3 h4
    unfold Decode
    rw [if_neg h1, h2]
    simp only [exceptBind_ok]
    rw [if_neg h3, h4]
    rfl
  · intro h1 h2 h3 h4 h5
    unfold Decode
    rw [if_neg h1, h2]
    simp only [exceptBind_ok]
    rw [if_neg h3, h4]
    simp only [exceptBind_ok]
    rw [if_pos h5]

/-- Pass-through instance for the C4 witness: identity Base91 stage. -/
def incW3 : Incorruptible :=
  { magic := 7
    cipher := cipherW
    baseNEnc := fun x => x
    baseNDec := fun y => .ok y }

/-- Witness for C4: the empty string is rejected for length; a 42-character
junk token passes the length guards and is rejected for its magic byte. -/
theorem C4_decode_rejection_witness :
    Decode (fun x => .ok x) incW3 [] = .error "BasE91 text too short" ∧
    Decode (fun x => .ok x) incW3 (List.replicate 42 0) = .error "bad magic code" := by
  constructor
  · exact (C4_decode_rejection (fun x => .ok x) incW3 [] [] [] "x").2.1 (by decide)
  · exact (C4_decode_rejection (fun x => .ok x) incW3 (List.replicate 42 0)
      (List.replicate 42 0) (List.replicate 14 0) "x").2.2.2.2
      (by decide) (by decide) (by decide) (by decide) (by decide)

/-! ## Claim C2 -/

/-- Claim C2: `Encrypt` seals with the PRNG-drawn nonce passed to it
(drawn fresh by `rand.Read` on each call in the source; the probabilistic
distinctness of draws is outside the model) and emits
`nonce ‖ ciphertext ‖ tag` as one contiguous buffer: for an AEAD with
12-byte nonces and 16-byte tags the output length is
`12 + |plaintext| + 16` and the first 12 bytes are exactly the nonce used
for sealing. -/
theorem C2_encrypt_structure (aead : AEAD) (nonce plaintext : List Nat)
    (hn : aead.nonceSize = 12) (hnonce : nonce.length = aead.nonceSize)
    (hseal : ∀ n p, (aead.Seal n p).length = p.length + gcmTagSize) :
    Encrypt aead nonce plaintext = nonce ++ aead.Seal nonce plaintext ∧
    (Encrypt aead nonce plaintext).length = 12 + plaintext.length + 16 ∧
    (Encrypt aead nonce plaintext).take 12 = nonce ∧
    (Encrypt aead nonce plaintext).drop 12 = aead.Seal nonce plaintext := by
  have h12 : nonce.length = 12 := by rw [hnonce, hn]
  refine ⟨rfl, ?_, ?_, ?_⟩
  · rw [Encrypt, List.length_append, h12, hseal]
    rw [show gcmTagSize = 16 from rfl]
    omega
  · rw [Encrypt, ← h12, List.take_left]
  · rw [Encrypt, ← h12, List.drop_left]

/-- Witness for C2 on the trivial AEAD at a concrete nonce and plaintext. -/
theorem C2_encrypt_structure_witness :
    Encrypt cipherW (List.replicate 12 5) [1, 2, 3] =
      List.replicate 12 5 ++ cipherW.Seal (List.replicate 12 5) [1, 2, 3] ∧
    (Encrypt cipherW (List.replicate 12 5) [1, 2, 3]).length = 12 + 3 + 16 ∧
    (Encrypt cipherW (List.replicate 12 5) [1, 2, 3]).take 12 = List.replicate 12 5 := by
  have h := C2_encrypt_structure cipherW (List.replicate 12 5) [1, 2, 3]
    rfl (by decide) (fun n p => by simp [cipherW, gcmTagSize])
  exact ⟨h.1, h.2.1, h.2.2.1⟩

/-! ## Claim C7 -/

/-- Claim C7: `Valid` succeeds iff the expiry is 0 or lies within
`[now, now + secondsPerYear]` (`secondsPerYear = 31556952`, about one
year), and the stored address is empty or `net.IP.Equal`-equal to the
parsed remote host of the request (`none` models an unparseable remote
address, which fails the comparison). -/
theorem validExpiry_iff (tv : TValues) (now : Int) :
    tv.ValidExpiry now = true ↔
      (tv.Expires = 0 ∨ (now ≤ tv.Expires ∧ tv.Expires ≤ now + secondsPerYear)) := by
  unfold TValues.ValidExpiry TValues.CompareExpiry
  by_cases h0 : tv.Expires = 0
  · simp [h0]
  · simp only [h0, if_false]
    split_ifs with hlo hhi
    · simp only [show ((-1 : Int) == 0) = false from rfl, Bool.false_eq_true, false_iff]
      push_neg
      exact ⟨not_false, fun h => by omega⟩
    · simp only [show ((1 : Int) == 0) = false from rfl, Bool.false_eq_true, false_iff]
      push_neg
      exact ⟨not_false, fun h => by omega⟩
    · simp only [show ((0 : Int) == 0) = true from rfl, true_iff]
      right
      omega

theorem validIP_iff (tv : TValues) (remote : Option (List Nat)) :
    tv.ValidIP remote = .ok () ↔
      (tv.IP.length = 0 ∨ ∃ x, remote = some x ∧ ipEqual tv.IP x = true) := by
  unfold TValues.ValidIP TValues.NoIP
  by_cases hip : tv.IP.length = 0
  · simp [hip]
  · have hip2 : ¬ tv.IP = [] := by
      intro h
      rw [h] at hip
      exact hip rfl
    simp only [show (tv.IP.length == 0) = false by simpa using hip, Bool.false_eq_true,
      if_false]
    rcases remote with _ | x
    · simp [hip2]
    · by_cases heq : ipEqual tv.IP x = true
      · simp [heq]
      · simp [heq, hip2]

/-- Claim C7: `Valid` succeeds iff the expiry is 0 or lies within
`[now, now + secondsPerYear]` (`secondsPerYear = 31556952`, about one
year), and the stored address is empty or `net.IP.Equal`-equal to the
parsed remote host of the request (`none` models an unparseable remote
address, which fails the comparison). -/
theorem C7_valid_iff (tv : TValues) (now : Int) (remote : Option (List Nat)) :
    secondsPerYear = 31556952 ∧
    (tv.Valid now remote = .ok () ↔
      ((tv.Expires = 0 ∨ (now ≤ tv.Expires ∧ tv.Expires ≤ now + secondsPerYear)) ∧
        (tv.IP.length = 0 ∨ ∃ x, remote = some x ∧ ipEqual tv.IP x = true))) := by
  refine ⟨rfl, ?_⟩
  unfold TValues.Valid
  by_cases hve : tv.ValidExpiry now = true
  · rw [if_neg (by simp [hve])]
    rw [validIP_iff]
    have hE := (validExpiry_iff tv now).mp hve
    exact ⟨fun h => ⟨hE, h⟩, fun h => h.2⟩
  · rw [if_pos (by simpa using hve)]
    refine iff_of_false (by simp) (fun h => hve ((validExpiry_iff tv now).mpr h.1))

/-! ## Claim C8 -/

/-- Claim C8: `NewCipher` selects the AEAD by key length — 16 bytes gives
AES-128-GCM, 32 bytes gives ChaCha20-Poly1305, both with 12-byte nonce and
16-byte tag — and any other length panics, aborting construction
(modelled as a construction error). -/
theorem C8_cipher_selection (secretKey : List Nat) :
    (secretKey.length = 16 → NewCipher secretKey = .ok .aes128gcm) ∧
    (secretKey.length = 32 → NewCipher secretKey = .ok .chacha20poly1305) ∧
    (secretKey.length ≠ 16 → secretKey.length ≠ 32 →
      isError (NewCipher secretKey) = true) ∧
    (∀ k : AEADKind, k.nonceSize = 12 ∧ k.tagSize = 16) := by
  refine ⟨?_, ?_, ?_, ?_⟩
  · intro h
    simp [NewCipher, h]
  · intro h
    simp [NewCipher, h]
  · intro h16 h32
    simp [NewCipher, h16, h32, isError]
  · intro k
    cases k <;> exact ⟨rfl, rfl⟩

/-- Witness for C8 at concrete key lengths 16, 32 and 3. -/
theorem C8_cipher_selection_witness :
    NewCipher (List.replicate 16 0) = .ok .aes128gcm ∧
    NewCipher (List.replicate 32 0) = .ok .chacha20poly1305 ∧
    isError (NewCipher [1, 2, 3]) = true := by
  refine ⟨(C8_cipher_selection (List.replicate 16 0)).1 (by decide),
    (C8_cipher_selection (List.replicate 32 0)).2.1 (by decide),
    (C8_cipher_selection [1, 2, 3]).2.2.1 (by decide) (by decide)⟩

/-! ## Claims C9 and C10: slot mechanics -/

theorem set_append_case (values : List (List Nat)) (cap : Nat) (buf : List Nat) :
    set values cap values.length buf = values ++ [buf] := by
  simp [set]

theorem set_overwrite_case (values : List (List Nat)) (cap k : Nat) (buf : List Nat)
    (hk : k < values.length) (hcap : values.length ≤ cap) :
    set values cap k buf = values.set k buf := by
  simp only [set]
  rw [if_neg (show ¬ k = values.length by omega),
    if_neg (show ¬ cap ≤ k by omega),
    if_neg (show ¬ values.length ≤ k by omega)]

theorem set_grow_case (values : List (List Nat)) (cap k : Nat) (buf : List Nat)
    (hk : values.length < k) (hk31 : k ≤ 31) :
    set values cap k buf =
      (values ++ List.replicate ((if cap ≤ k then MaxValues + 1 else k + 1) -
        values.length) []).set k buf := by
  have hM : MaxValues = 31 := rfl
  simp only [set]
  rw [if_neg (show ¬ k = values.length by omega)]
  by_cases hc : cap ≤ k
  · rw [if_pos hc, if_pos hc]
    rw [List.take_of_length_le (show values.length ≤ MaxValues + 1 by omega)]
    split_ifs with h2
    · exfalso
      simp only [List.length_append, List.length_replicate] at h2
      omega
    · rfl
  · rw [if_neg hc, if_neg hc]
    rw [if_pos (show values.length ≤ k by omega)]

/-- Claim C9: for SetUint64 / SetBool / SetString the call fails exactly
when the key is negative or above 31; on success all three delegate to
`set` with the class-specific encoding; `set` appends (making the length
`i+1`) when `i` equals the current length, overwrites slot `i` leaving all
other slots unchanged when `i` is in range (given the Go invariant
`len ≤ cap`), and otherwise grows the sequence so that slot `i` holds the
value, the old slots are preserved and the intermediate slots are empty. -/
theorem C9_setters (tv : TValues) (cap : Nat) (key : Int) (u64 : Nat) (bv : Bool)
    (sv : List Nat) :
    ((isError (tv.SetUint64 cap key u64) = true ↔ (key < 0 ∨ 31 < key)) ∧
      (isError (tv.SetBool cap key bv) = true ↔ (key < 0 ∨ 31 < key)) ∧
      (isError (tv.SetString cap key sv) = true ↔ (key < 0 ∨ 31 < key))) ∧
    (0 ≤ key → key ≤ 31 →
      tv.SetUint64 cap key u64 = .ok (tv.setV cap key (Uint64ToBytes u64)) ∧
      tv.SetBool cap key bv = .ok (tv.setV cap key (if bv then [0] else [])) ∧
      tv.SetString cap key sv = .ok (tv.setV cap key sv)) ∧
    (∀ buf : List Nat, ∀ k : Nat,
      (k = tv.Values.length →
        set tv.Values cap k buf = tv.Values ++ [buf] ∧
        (set tv.Values cap k buf).length = tv.Values.length + 1) ∧
      (k < tv.Values.length → tv.Values.length ≤ cap →
        set tv.Values cap k buf = tv.Values.set k buf ∧
        (set tv.Values cap k buf).length = tv.Values.length ∧
        (set tv.Values cap k buf).getD k [] = buf ∧
        (∀ j, j ≠ k → (set tv.Values cap k buf).getD j [] = tv.Values.getD j [])) ∧
      (tv.Values.length < k → k ≤ 31 →
        tv.Values.length < (set tv.Values cap k buf).length ∧
        (set tv.Values cap k buf).getD k [] = buf ∧
        (∀ j, j < tv.Values.length →
          (set tv.Values cap k buf).getD j [] = tv.Values.getD j []) ∧
        (∀ j, tv.Values.length ≤ j → j < k →
          (set tv.Values cap k buf).getD j [] = []))) := by
  have hM : (MaxValues : Int) = 31 := by norm_num [MaxValues, maskNValues]
  have hcw : ∀ (k : Int) (res : TValues),
      isError ((checkWrite k) >>= (fun _ => (Except.ok res : Except String TValues))) =
        true ↔ (k < 0 ∨ 31 < k) := by
    intro k res
    unfold checkWrite
    rw [hM]
    split_ifs with h1 h2
    · rw [exceptBind_error]
      simp only [isError, true_iff]
      omega
    · rw [exceptBind_error]
      simp only [isError, true_iff]
      omega
    · rw [exceptBind_ok]
      simp only [isError, Bool.false_eq_true, false_iff]
      omega
  refine ⟨⟨hcw key _, hcw key _, hcw key _⟩, ?_, ?_⟩
  · intro hk0 hk31
    have hok : checkWrite key = .ok () := by
      unfold checkWrite
      rw [hM, if_neg (show ¬ key < 0 by omega), if_neg (show ¬ key > 31 by omega)]
    unfold TValues.SetUint64 TValues.SetBool TValues.SetString
    rw [hok]
    exact ⟨rfl, rfl, rfl⟩
  · intro buf k
    refine ⟨?_, ?_, ?_⟩
    · intro hk
      subst hk
      rw [set_append_case]
      simp
    · intro hk hcap
      rw [set_overwrite_case tv.Values cap k buf hk hcap]
      refine ⟨rfl, List.length_set tv.Values k buf, ?_, ?_⟩
      · rw [List.getD_eq_getElem?_getD, List.getElem?_set_self hk]
        rfl
      · intro j hj
        rw [List.getD_eq_getElem?_getD, List.getElem?_set_ne (fun h => hj h.symm),
          ← List.getD_eq_getElem?_getD]
    · intro hk hk31
      have hMn : MaxValues = 31 := rfl
      rw [set_grow_case tv.Values cap k buf hk hk31]
      have hpadlen : (tv.Values ++ List.replicate
          ((if cap ≤ k then MaxValues + 1 else k + 1) - tv.Values.length) []).length =
          if cap ≤ k then MaxValues + 1 else k + 1 := by
        simp only [List.length_append, List.length_replicate]
        split_ifs with hc
        · omega
        · omega
      have hklt : k < (tv.Values ++ List.replicate
          ((if cap ≤ k then MaxValues + 1 else k + 1) - tv.Values.length) []).length := by
        rw [hpadlen]
        split_ifs with hc
        · omega
        · omega
      refine ⟨?_, ?_, ?_, ?_⟩
      · rw [List.length_set, hpadlen]
        split_ifs with hc
        · omega
        · omega
      · rw [List.getD_eq_getElem?_getD, List.getElem?_set_self hklt]
        rfl
      · intro j hj
        rw [List.getD_eq_getElem?_getD, List.getElem?_set_ne (show k ≠ j by omega),
          List.getElem?_append, if_pos hj, ← List.getD_eq_getElem?_getD]
      · intro j hj1 hj2
        rw [List.getD_eq_getElem?_getD, List.getElem?_set_ne (show k ≠ j by omega),
          List.getElem?_append_right hj1, List.getElem?_replicate]
        rw [if_pos (show j - tv.Values.length <
            (if cap ≤ k then MaxValues + 1 else k + 1) - tv.Values.length by
          split_ifs with hc
          · omega
          · omega)]
        rfl

/-- Witness for C9 at a concrete record. -/
theorem C9_setters_witness :
    isError (TValues.SetUint64 { Expires := 0, IP := [], Values := [[5]] } 1 32 7) = true ∧
    set [[5]] 1 1 [9] = [[5]] ++ [[9]] ∧
    (set [[5]] 1 3 [9]).getD 3 [] = [9] := by
  refine ⟨(C9_setters { Expires := 0, IP := [], Values := [[5]] } 1 32 7 true
      [9]).1.1.mpr (by norm_num),
    (((C9_setters { Expires := 0, IP := [], Values := [[5]] } 1 0 7 true
      [9]).2.2 [9] 1).1 (by decide)).1,
    (((C9_setters { Expires := 0, IP := [], Values := [[5]] } 1 0 7 true
      [9]).2.2 [9] 3).2.2 (by decide) (by decide)).2.1⟩

/-- Claim C10: for an in-range index the Bool getter returns false on an
empty slot, true on any one-byte slot (whatever the byte), and an error on
slots of two or more bytes; a slot successfully written by SetString with
a one-byte string therefore reads back as true. -/
theorem C10_bool_getter (tv : TValues) (key : Int) (hk0 : 0 ≤ key)
    (hk : key < (tv.Values.length : Int)) :
    (tv.Values.getD key.toNat [] = [] → tv.Bool key = .ok false) ∧
    (∀ c, tv.Values.getD key.toNat [] = [c] → tv.Bool key = .ok true) ∧
    (2 ≤ (tv.Values.getD key.toNat []).length → isError (tv.Bool key) = true) ∧
    (∀ cap c, tv.Values.length ≤ cap → key ≤ 31 →
      ∃ tv2, tv.SetString cap key [c] = .ok tv2 ∧ tv2.Bool key = .ok true) := by
  have hread : tv.checkRead key = .ok () := by
    unfold TValues.checkRead
    rw [if_neg (by omega), if_neg (by omega)]
  refine ⟨?_, ?_, ?_, ?_⟩
  · intro h
    unfold TValues.Bool
    rw [hread]
    simp only [exceptBind_ok, h]
    rfl
  · intro c h
    unfold TValues.Bool
    rw [hread]
    simp only [exceptBind_ok, h]
    rfl
  · intro h
    unfold TValues.Bool
    rw [hread]
    simp only [exceptBind_ok]
    rcases h2 : (tv.Values.getD key.toNat []).length with _ | n
    · omega
    · rcases n with _ | n
      · omega
      · simp [isError]
  · intro cap c hcap hk31
    have hok : checkWrite key = .ok () := by
      unfold checkWrite
      rw [if_neg (by omega), if_neg (by simp only [MaxValues, maskNValues]; omega)]
    refine ⟨tv.setV cap key [c], ?_, ?_⟩
    · unfold TValues.SetString
      rw [hok]
      rfl
    · have hkn : key.toNat < tv.Values.length := by omega
      have hslot : (set tv.Values cap key.toNat [c]).getD key.toNat [] = [c] := by
        rw [set_overwrite_case tv.Values cap key.toNat [c] hkn hcap,
          List.getD_eq_getElem?_getD, List.getElem?_set_self hkn]
        rfl
      have hlen : key.toNat < (set tv.Values cap key.toNat [c]).length := by
        rw [set_overwrite_case tv.Values cap key.toNat [c] hkn hcap, List.length_set]
        exact hkn
      unfold TValues.Bool TValues.checkRead TValues.setV
      simp only
      rw [if_neg (by omega), if_neg (by omega)]
      simp only [exceptBind_ok, hslot]
      rfl

/-- Witness for C10 at a concrete record with an empty, a one-byte and a
two-byte slot. -/
theorem C10_bool_getter_witness :
    TValues.Bool { Expires := 0, IP := [], Values := [[], [9], [1, 2]] } 0 = .ok false ∧
    TValues.Bool { Expires := 0, IP := [], Values := [[], [9], [1, 2]] } 1 = .ok true ∧
    isError (TValues.Bool { Expires := 0, IP := [], Values := [[], [9], [1, 2]] } 2) =
      true ∧
    (∃ tv2, TValues.SetString { Expires := 0, IP := [], Values := [[], [9], [1, 2]] }
        3 0 [7] = .ok tv2 ∧ tv2.Bool 0 = .ok true) := by
  refine ⟨?_, ?_, ?_, ?_⟩
  · exact (C10_bool_getter { Expires := 0, IP := [], Values := [[], [9], [1, 2]] } 0
      (by norm_num) (by norm_num)).1 (by decide)
  · exact (C10_bool_getter { Expires := 0, IP := [], Values := [[], [9], [1, 2]] } 1
      (by norm_num) (by norm_num)).2.1 9 (by decide)
  · exact (C10_bool_getter { Expires := 0, IP := [], Values := [[], [9], [1, 2]] } 2
      (by norm_num) (by norm_num)).2.2.1 (by decide)
  · exact (C10_bool_getter { Expires := 0, IP := [], Values := [[], [9], [1, 2]] } 0
      (by norm_num) (by norm_num)).2.2.2 3 7 (by norm_num) (by norm_num)

end Incorr
